import Mathlib

/-!
Shallow embedding of the URL-YOLO dataset pipeline
(`url-yolo-converter.py`, `url-fixer.py`, `download.py`).

Python strings are modelled as lists of characters, Python dicts as
association lists with insertion order (the order Python preserves),
Python floats as rationals, and filesystem / network effects as explicit
oracle parameters together with result values and call counters.
-/

/-- Python strings are modelled as lists of characters. -/
abbrev Str := List Char

/-- Embed a Lean string literal into the model's string type. -/
def str (s : String) : Str := s.data

/-- Whitespace removed by Python `str.strip` (space, tab, CR, LF). -/
def pyStrip (s : Str) : Str :=
  ((s.dropWhile Char.isWhitespace).reverse.dropWhile Char.isWhitespace).reverse

/-- Python `s.split(sep)` for a one-character separator: the current
character either closes the chunk before a separator or is prepended to
the first chunk of the split of the rest (which is never empty). -/
def splitChar (sep : Char) : Str → List Str
  | [] => [[]]
  | c :: rest =>
    if c = sep then [] :: splitChar sep rest
    else (c :: (splitChar sep rest).headI) :: (splitChar sep rest).tail

/-- Numeric value of a list of decimal digits. -/
def digitsToNat (ds : Str) : Nat :=
  ds.foldl (fun n c => 10 * n + (c.toNat - '0'.toNat)) 0

/-- Python `int(s)` on an already-stripped string: an optional sign followed
by at least one decimal digit; anything else raises, modelled as `none`.
(Underscore digit grouping, which Python also accepts, does not occur in the
inputs of this pipeline and is not modelled.) -/
def pyInt (s : Str) : Option Int :=
  match s with
  | '-' :: ds => if ds ≠ [] ∧ ds.all Char.isDigit then some (-(digitsToNat ds : Int)) else none
  | '+' :: ds => if ds ≠ [] ∧ ds.all Char.isDigit then some (digitsToNat ds : Int) else none
  | ds => if ds ≠ [] ∧ ds.all Char.isDigit then some (digitsToNat ds : Int) else none

/-- Drop an exact expected front segment from a string, the deterministic
building block for the anchored regular-expression matchers below. -/
def dropExact : Str → Str → Option Str
  | [], s => some s
  | _ :: _, [] => none
  | p :: ps, c :: cs => if c = p then dropExact ps cs else none

/-- Split a string into its maximal leading digit run and the rest
(the deterministic reading of a greedy regex group of digits). -/
def takeDigits (s : Str) : Str × Str :=
  (s.takeWhile Char.isDigit, s.dropWhile Char.isDigit)

/-- Python `os.path.join(a, b)` for a relative second component. -/
def pyPathJoin (a b : Str) : Str :=
  if a = [] then b
  else if a.getLast? = some '/' then a ++ b
  else a ++ '/' :: b

/-! ## AnnotationConverter (`url-yolo-converter.py`) -/

/-- Raw annotation record produced by `parse_annotation_format`
(`url-yolo-converter.py` lines 51-64). -/
structure RawAnnotation where
  class_id : Int
  x1 : Int
  y1 : Int
  x2 : Int
  y2 : Int
deriving DecidableEq, Repr

/-- A comma field put through `int(x.strip())` inside
`parse_annotation_format`: `Except.error` models the uncaught
`ValueError` raised on a non-integer field. -/
def pyIntField (f : Str) : Except Unit Int :=
  match pyInt (pyStrip f) with
  | some v => Except.ok v
  | none => Except.error ()

/-- Embedding of `parse_annotation_format` (lines 51-64): the line is split
on commas, every field is passed through `int(x.strip())` — an uncaught
`ValueError` (modelled as `Except.error`) when some field is not an
integer — and only then is the length checked, returning `none`
(record skipped) when fewer than six values are present. -/
def parseAnnotationFormat (line : Str) : Except Unit (Option RawAnnotation) := do
  let values ← (splitChar ',' line).mapM pyIntField
  match values with
  | c :: a :: b :: x :: d :: _ :: _ =>
    return some { class_id := c, x1 := a, y1 := b, x2 := x, y2 := d }
  | _ => return none

/-- Clamp a rational to the unit interval, as `max(0, min(1, v))`. -/
def clamp01 (q : ℚ) : ℚ := max 0 (min 1 q)

/-- The four normalized box values computed by `convert_to_yolo_format`
(lines 82-94), before textual formatting. -/
structure YoloBox where
  class_id : Int
  xCenter : ℚ
  yCenter : ℚ
  width : ℚ
  height : ℚ

/-- Numeric part of `convert_to_yolo_format` (lines 78-94): the class id is
remapped when present in the caller-supplied table (an empty table, like a
falsy `class_mapping`, leaves it unchanged), the center/size values are the
exact formulas of lines 85-88, and all four are clamped to `[0, 1]`. -/
def yoloBoxOf (a : RawAnnotation) (imgWidth imgHeight : ℚ)
    (classMapping : List (Int × Int)) : YoloBox :=
  let cid :=
    match classMapping.lookup a.class_id with
    | some c => c
    | none => a.class_id
  { class_id := cid
    xCenter := clamp01 (((a.x1 : ℚ) + (a.x2 : ℚ)) / 2 / imgWidth)
    yCenter := clamp01 (((a.y1 : ℚ) + (a.y2 : ℚ)) / 2 / imgHeight)
    width := clamp01 (((a.x2 : ℚ) - (a.x1 : ℚ)) / imgWidth)
    height := clamp01 (((a.y2 : ℚ) - (a.y1 : ℚ)) / imgHeight) }

/-- Round a rational to the nearest integer, ties to even — the rounding
used by `%.6f` formatting for the nonnegative clamped values produced here. -/
def roundHalfEven (q : ℚ) : Int :=
  let f := ⌊q⌋
  if q - f < 1 / 2 then f
  else if 1 / 2 < q - f then f + 1
  else if Even f then f else f + 1

/-- Left-pad a digit string to six characters with zeros. -/
def padSix (s : Str) : Str := List.replicate (6 - s.length) '0' ++ s

/-- Python `f"{v:.6f}"` for the nonnegative clamped values of this
converter: six fixed decimal digits, rounding to nearest. -/
def fmt6 (q : ℚ) : Str :=
  let n := (roundHalfEven (q * 1000000)).toNat
  (toString (n / 1000000)).data ++ '.' :: padSix (toString (n % 1000000)).data

/-- Embedding of `convert_to_yolo_format` (lines 66-96): the returned YOLO
label line `"class_id x_center y_center width height"` with each float
formatted to six decimal places. -/
def convertToYoloFormat (a : RawAnnotation) (imgWidth imgHeight : ℚ)
    (classMapping : List (Int × Int)) : Str :=
  let b := yoloBoxOf a imgWidth imgHeight classMapping
  (toString b.class_id).data
    ++ ' ' :: fmt6 b.xCenter
    ++ ' ' :: fmt6 b.yCenter
    ++ ' ' :: fmt6 b.width
    ++ ' ' :: fmt6 b.height

lemma clamp01_nonneg (q : ℚ) : 0 ≤ clamp01 q := le_max_left 0 _

lemma clamp01_le_one (q : ℚ) : clamp01 q ≤ 1 :=
  max_le (by norm_num) (min_le_left 1 q)

/-- C1: for every raw annotation and all positive image dimensions, each of
the four floats `xCenter`, `yCenter`, `width`, `height` of the normalized
box produced by `convert_to_yolo_format` lies in `[0, 1]`, even when the
raw coordinates lie outside the image bounds or are inverted. -/
theorem claim_C1_box_in_unit_interval (a : RawAnnotation) (w h : ℚ)
    (cm : List (Int × Int)) (hw : 0 < w) (hh : 0 < h) :
    (0 ≤ (yoloBoxOf a w h cm).xCenter ∧ (yoloBoxOf a w h cm).xCenter ≤ 1) ∧
    (0 ≤ (yoloBoxOf a w h cm).yCenter ∧ (yoloBoxOf a w h cm).yCenter ≤ 1) ∧
    (0 ≤ (yoloBoxOf a w h cm).width ∧ (yoloBoxOf a w h cm).width ≤ 1) ∧
    (0 ≤ (yoloBoxOf a w h cm).height ∧ (yoloBoxOf a w h cm).height ≤ 1) := by
  refine ⟨⟨?_, ?_⟩, ⟨?_, ?_⟩, ⟨?_, ?_⟩, ⟨?_, ?_⟩⟩ <;>
    simp only [yoloBoxOf] <;>
    first
      | exact clamp01_nonneg _
      | exact clamp01_le_one _

/-- C1 witness: the theorem instantiated at the concrete annotation
`(10, 100, 200, 300, 400)` in a 1920 by 1080 image. -/
theorem claim_C1_witness :
    ((0 : ℚ) < 1920 ∧ (0 : ℚ) < 1080) ∧
    ((0 ≤ (yoloBoxOf ⟨10, 100, 200, 300, 400⟩ 1920 1080 [(10, 0)]).xCenter ∧
        (yoloBoxOf ⟨10, 100, 200, 300, 400⟩ 1920 1080 [(10, 0)]).xCenter ≤ 1) ∧
      (0 ≤ (yoloBoxOf ⟨10, 100, 200, 300, 400⟩ 1920 1080 [(10, 0)]).yCenter ∧
        (yoloBoxOf ⟨10, 100, 200, 300, 400⟩ 1920 1080 [(10, 0)]).yCenter ≤ 1) ∧
      (0 ≤ (yoloBoxOf ⟨10, 100, 200, 300, 400⟩ 1920 1080 [(10, 0)]).width ∧
        (yoloBoxOf ⟨10, 100, 200, 300, 400⟩ 1920 1080 [(10, 0)]).width ≤ 1) ∧
      (0 ≤ (yoloBoxOf ⟨10, 100, 200, 300, 400⟩ 1920 1080 [(10, 0)]).height ∧
        (yoloBoxOf ⟨10, 100, 200, 300, 400⟩ 1920 1080 [(10, 0)]).height ≤ 1)) :=
  ⟨⟨by norm_num, by norm_num⟩,
    claim_C1_box_in_unit_interval ⟨10, 100, 200, 300, 400⟩ 1920 1080 [(10, 0)]
      (by norm_num) (by norm_num)⟩

lemma clamp01_of_mem {q : ℚ} (h0 : 0 ≤ q) (h1 : q ≤ 1) : clamp01 q = q := by
  unfold clamp01
  rw [min_eq_right h1, max_eq_right h0]

lemma fmt6_eq_of_up (q : ℚ) (f : ℤ) (hf : ⌊q * 1000000⌋ = f)
    (h2 : 1 / 2 < q * 1000000 - f) :
    fmt6 q = (toString ((f + 1).toNat / 1000000)).data
      ++ '.' :: padSix (toString ((f + 1).toNat % 1000000)).data := by
  simp only [fmt6, roundHalfEven, hf]
  rw [if_neg (by linarith), if_pos h2]

lemma fmt6_eq_of_down (q : ℚ) (f : ℤ) (hf : ⌊q * 1000000⌋ = f)
    (h2 : q * 1000000 - f < 1 / 2) :
    fmt6 q = (toString (f.toNat / 1000000)).data
      ++ '.' :: padSix (toString (f.toNat % 1000000)).data := by
  simp only [fmt6, roundHalfEven, hf]
  rw [if_pos h2]

lemma convert_concrete_eval :
    convertToYoloFormat ⟨10, 100, 200, 300, 400⟩ 1920 1080 [(10, 0)] =
      str "0 0.104167 0.277778 0.104167 0.185185" := by
  have f1 : fmt6 (5 / 48) = str "0.104167" := by
    rw [fmt6_eq_of_up (5 / 48) 104166
      (Int.floor_eq_iff.mpr ⟨by norm_num, by norm_num⟩) (by norm_num)]
    decide
  have f2 : fmt6 (5 / 18) = str "0.277778" := by
    rw [fmt6_eq_of_up (5 / 18) 277777
      (Int.floor_eq_iff.mpr ⟨by norm_num, by norm_num⟩) (by norm_num)]
    decide
  have f4 : fmt6 (5 / 27) = str "0.185185" := by
    rw [fmt6_eq_of_down (5 / 27) 185185
      (Int.floor_eq_iff.mpr ⟨by norm_num, by norm_num⟩) (by norm_num)]
    decide
  simp only [convertToYoloFormat, yoloBoxOf, List.lookup, clamp01]
  norm_num
  rw [f1, f2, f4]
  decide

/-- C2 counterexample: the conversion of the annotation
`(10, 100, 200, 300, 400)` in a 1920 by 1080 image under the mapping
`{10: 0}` is not the line claimed by the spec: the claimed `yCenter`
value `0.184259` differs from `((200+400)/2)/1080 = 0.277778`. -/
theorem claim_C2_counterexample :
    convertToYoloFormat ⟨10, 100, 200, 300, 400⟩ 1920 1080 [(10, 0)] ≠
      str "0 0.104167 0.184259 0.104167 0.185185" := by
  rw [convert_concrete_eval]
  decide

/-- C2 (amended): converting the raw annotation `classId=10, x1=100,
y1=200, x2=300, y2=400` in a 1920 by 1080 image under the class mapping
`{10: 0}` produces exactly the six-decimal label line
`"0 0.104167 0.277778 0.104167 0.185185"` (the `yCenter` component is
`((y1+y2)/2)/height = 0.277778`, not the `0.184259` of the claim),
computed as `xCenter = ((x1+x2)/2)/width`, `yCenter = ((y1+y2)/2)/height`,
`width_n = (x2-x1)/width`, `height_n = (y2-y1)/height`. -/
theorem claim_C2_concrete_line :
    convertToYoloFormat ⟨10, 100, 200, 300, 400⟩ 1920 1080 [(10, 0)] =
      str "0 0.104167 0.277778 0.104167 0.185185" :=
  convert_concrete_eval

/-! ## SuffixResolver (`url-fixer.py`) -/

/-- Lookup in a Python dict modelled as an insertion-ordered association
list. -/
def dictGet {α : Type} : List (Str × α) → Str → Option α
  | [], _ => none
  | (k', v) :: rest, k => if k = k' then some v else dictGet rest k

/-- Python dict assignment `d[k] = v`: replace the value in place when the
key is present, append a new entry otherwise. -/
def dictSet {α : Type} : List (Str × α) → Str → α → List (Str × α)
  | [], k, v => [(k, v)]
  | (k', v') :: rest, k, v =>
    if k = k' then (k', v) :: rest else (k', v') :: dictSet rest k v

/-- The nested suffix dictionary of `get_image_suffixes`:
`imagesetId -> imageNumber -> suffixToken`, insertion-ordered. -/
abbrev SuffixCache := List (Str × List (Str × Str))

/-- One observation `suffixes[imageset_id][image_number] = suffix`, the
update performed both by the cache-file loader (`url-fixer.py` lines 27-29)
and by the directory-listing scrape (lines 65-66). -/
def cacheObserve : SuffixCache → Str → Str → Str → SuffixCache
  | [], imagesetId, imageNumber, suffix => [(imagesetId, [(imageNumber, suffix)])]
  | (id, inner) :: rest, imagesetId, imageNumber, suffix =>
    if imagesetId = id then (id, dictSet inner imageNumber suffix) :: rest
    else (id, inner) :: cacheObserve rest imagesetId imageNumber suffix

/-- Resolve `(imagesetId, imageNumber)` in the nested dictionary: `none`
models NotFound (the key pair is absent). -/
def cacheResolve (c : SuffixCache) (imagesetId imageNumber : Str) : Option Str :=
  match dictGet c imagesetId with
  | some inner => dictGet inner imageNumber
  | none => none

/-- Parse one cache-file line (`url-fixer.py` lines 24-26): strip the line,
split on commas, and accept it only when exactly three fields result. -/
def parseCacheLine (line : Str) : Option (Str × Str × Str) :=
  match splitChar ',' (pyStrip line) with
  | [a, b, c] => some (a, b, c)
  | _ => none

/-- Fold the cache-file lines into an accumulator dictionary
(`url-fixer.py` lines 21-29); lines that do not have exactly three
comma-separated fields are ignored. -/
def loadInto (c : SuffixCache) (lines : List Str) : SuffixCache :=
  lines.foldl (fun acc line =>
    match parseCacheLine line with
    | some (a, b, s) => cacheObserve acc a b s
    | none => acc) c

/-- Load a cache file, starting from the empty dictionary. -/
def loadCacheLines (lines : List Str) : SuffixCache := loadInto [] lines

/-- Serialize a suffix cache (`url-fixer.py` lines 75-78): one line
`imagesetId,imageNumber,suffixToken` per entry, in dictionary iteration
order. -/
def saveCacheLines (c : SuffixCache) : List Str :=
  (c.map (fun p => p.2.map (fun q => p.1 ++ ',' :: (q.1 ++ ',' :: q.2)))).flatten

/-- Record every `(imageNumber, suffix)` pair extracted from one
directory listing into the cache (`url-fixer.py` lines 65-66). -/
def scrapeListing (c : SuffixCache) (imagesetId : Str)
    (found : List (Str × Str)) : SuffixCache :=
  found.foldl (fun acc p => cacheObserve acc imagesetId p.1 p.2) c

/-- The regular expression `images/1_(\d+)/?$` applied to the base URL
(`url-fixer.py` line 36): the URL must end with `images/1_`, at least one
digit, and at most one trailing slash; the digits are returned. -/
def baseUrlImageset (url : Str) : Option Str :=
  let u := if url.getLast? = some '/' then url.dropLast else url
  let ds := (u.reverse.takeWhile Char.isDigit).reverse
  if ds = [] then none
  else
    match dropExact (str "images/1_").reverse (u.reverse.drop ds.length) with
    | some _ => some ds
    | none => none

/-- Python `s.rsplit('/', 1)[0]`: everything before the last slash, or the
whole string when it has no slash. -/
def pyRsplitHead (s : Str) : Str :=
  let r := s.reverse.dropWhile (fun c => c ≠ '/')
  if r = [] then s else (r.drop 1).reverse

/-- The predefined imageset list used when the base URL names no specific
imageset (`url-fixer.py` lines 46-49). -/
def predefinedImagesets : List Str :=
  [str "145", str "146", str "147", str "148", str "149", str "152",
    str "153", str "154", str "158", str "175"]

/-- Embedding of `get_image_suffixes` (`url-fixer.py` lines 8-80).
`cacheProvided` models a truthy `cache_file` argument and `cacheExists`
models `os.path.exists(cache_file)`; `cacheLines` is the content of the
cache file. The directory-listing fetch and its regex extraction are
modelled by the oracle `net`, which maps a listing URL to the list of
`(imageNumber, suffixToken)` pairs of pattern matches in the response
body, or `none` for a fetch error (caught and skipped). The second
component counts network requests (`urllib.request.urlopen` calls). -/
def getImageSuffixes (baseUrl : Str) (cacheProvided cacheExists : Bool)
    (cacheLines : List Str) (net : Str → Option (List (Str × Str))) :
    SuffixCache × Nat :=
  if cacheProvided && cacheExists then
    (loadCacheLines cacheLines, 0)
  else
    let p :=
      match baseUrlImageset baseUrl with
      | some id =>
        ([id], pyRsplitHead (if baseUrl.getLast? = some '/' then baseUrl.dropLast else baseUrl))
      | none => (predefinedImagesets, baseUrl)
    p.1.foldl (fun (acc : SuffixCache × Nat) id =>
      match net (p.2 ++ str "/1_" ++ id ++ str "/") with
      | some found => (scrapeListing acc.1 id found, acc.2 + 1)
      | none => (acc.1, acc.2 + 1)) ([], 0)

/-- C6: whenever a cache file is provided and exists on disk, the resolver
returns exactly the mapping loaded from the cache-file lines, performs
zero network calls whatever the network oracle would answer, and a lookup
for a key absent from the cache yields NotFound (`none`) rather than any
fallback fetch. -/
theorem claim_C6_cache_mode_no_network (baseUrl : Str) (cacheLines : List Str)
    (net : Str → Option (List (Str × Str))) :
    getImageSuffixes baseUrl true true cacheLines net = (loadCacheLines cacheLines, 0) ∧
    (∀ id num, cacheResolve (getImageSuffixes baseUrl true true cacheLines net).1 id num =
      cacheResolve (loadCacheLines cacheLines) id num) := by
  constructor
  · rfl
  · intro id num
    rfl

/-- C4 counterexample: scraping a directory listing whose match list
contains the key `("145", "0000601")` twice, first with suffix `"AAA"`
then with suffix `"BBB"`, leaves the cache resolving to `"BBB"`: the
later observation overwrites the earlier entry instead of being ignored. -/
theorem claim_C4_counterexample :
    cacheResolve
        (scrapeListing [] (str "145")
          [(str "0000601", str "AAA"), (str "0000601", str "BBB")])
        (str "145") (str "0000601") = some (str "BBB") ∧
      cacheResolve
        (scrapeListing [] (str "145")
          [(str "0000601", str "AAA"), (str "0000601", str "BBB")])
        (str "145") (str "0000601") ≠ some (str "AAA") := by
  constructor
  · decide
  · decide

lemma dictGet_dictSet {α : Type} (m : List (Str × α)) (k k' : Str) (v : α) :
    dictGet (dictSet m k v) k' = if k' = k then some v else dictGet m k' := by
  induction m with
  | nil =>
    by_cases h : k' = k <;> simp [dictSet, dictGet, h]
  | cons p rest ih =>
    obtain ⟨k0, v0⟩ := p
    by_cases hk : k = k0
    · subst hk
      by_cases h : k' = k <;> simp [dictSet, dictGet, h]
    · by_cases h : k' = k0
      · subst h
        simp [dictSet, dictGet, hk, Ne.symm hk]
      · simp [dictSet, dictGet, hk, h, ih]

lemma cacheResolve_cacheObserve (c : SuffixCache) (id n s num : Str) :
    cacheResolve (cacheObserve c id n s) id num =
      if num = n then some s else cacheResolve c id num := by
  induction c with
  | nil =>
    by_cases h : num = n <;>
      simp [cacheObserve, cacheResolve, dictGet, dictGet_dictSet, h]
  | cons p rest ih =>
    obtain ⟨id0, inner⟩ := p
    by_cases hid : id = id0
    · subst hid
      by_cases h : num = n <;>
        simp [cacheObserve, cacheResolve, dictGet, dictGet_dictSet, h]
    · simp only [cacheObserve, if_neg hid]
      simpa [cacheResolve, dictGet, hid] using ih

/-- Last suffix recorded for `num` in a match list, the specification value
for the last-observation-wins overwrite semantics. -/
def lastMatch (found : List (Str × Str)) (num : Str) : Option Str :=
  match found with
  | [] => none
  | (n, s) :: rest =>
    match lastMatch rest num with
    | some r => some r
    | none => if num = n then some s else none

lemma dictSet_of_dictGet {α : Type} (m : List (Str × α)) (k : Str) (v : α)
    (h : dictGet m k = some v) : dictSet m k v = m := by
  induction m with
  | nil => simp [dictGet] at h
  | cons p rest ih =>
    obtain ⟨k0, v0⟩ := p
    by_cases hk : k = k0
    · subst hk
      simp [dictGet] at h
      simp [dictSet, h]
    · simp [dictGet, hk] at h
      simp [dictSet, hk, ih h]

lemma cacheObserve_of_resolved (c : SuffixCache) (id num s : Str)
    (h : cacheResolve c id num = some s) : cacheObserve c id num s = c := by
  induction c with
  | nil => simp [cacheResolve, dictGet] at h
  | cons p rest ih =>
    obtain ⟨id0, inner⟩ := p
    by_cases hid : id = id0
    · subst hid
      simp only [cacheResolve, dictGet, if_pos rfl] at h
      simp [cacheObserve, dictSet_of_dictGet inner num s h]
    · simp only [cacheResolve, dictGet, if_neg hid] at h
      have := ih (by simpa [cacheResolve] using h)
      simp [cacheObserve, hid, this]

/-- C4 (amended): within one resolution pass, a later observation for a
`(imagesetId, imageNumber)` key already in the suffix cache overwrites the
entry's suffix token — the last observation wins, both when scraping a
directory listing and when loading the cache file, which share the same
dictionary update — and merging a duplicate observation carrying the same
token leaves the mapping unchanged. -/
theorem claim_C4_last_observation_wins :
    (∀ (c : SuffixCache) (id num : Str) (found : List (Str × Str)),
      cacheResolve (scrapeListing c id found) id num =
        match lastMatch found num with
        | some s => some s
        | none => cacheResolve c id num) ∧
    (∀ (c : SuffixCache) (id num s : Str),
      cacheResolve c id num = some s → cacheObserve c id num s = c) := by
  constructor
  · intro c id num found
    induction found generalizing c with
    | nil => simp [scrapeListing, lastMatch]
    | cons q rest ih =>
      obtain ⟨n, s⟩ := q
      have step : scrapeListing c id ((n, s) :: rest) =
          scrapeListing (cacheObserve c id n s) id rest := rfl
      rw [step, ih]
      cases hrest : lastMatch rest num with
      | some r => simp [lastMatch, hrest]
      | none =>
        simp only [lastMatch, hrest]
        by_cases h : num = n <;>
          simp [cacheResolve_cacheObserve, h]
  · exact cacheObserve_of_resolved

/-- C4 witness: the theorem instantiated concretely — scraping the match
list `[("0000601","AAA"), ("0000601","BBB")]` resolves to the last token,
and re-observing an already-cached identical token leaves the cache as it
was. -/
theorem claim_C4_witness :
    (cacheResolve
        (scrapeListing [] (str "145")
          [(str "0000601", str "AAA"), (str "0000601", str "BBB")])
        (str "145") (str "0000601") =
      match lastMatch [(str "0000601", str "AAA"), (str "0000601", str "BBB")]
          (str "0000601") with
      | some s => some s
      | none => cacheResolve [] (str "145") (str "0000601")) ∧
    (cacheResolve [(str "145", [(str "0000601", str "EGD3NF")])]
        (str "145") (str "0000601") = some (str "EGD3NF")) ∧
    cacheObserve [(str "145", [(str "0000601", str "EGD3NF")])]
        (str "145") (str "0000601") (str "EGD3NF") =
      [(str "145", [(str "0000601", str "EGD3NF")])] :=
  ⟨claim_C4_last_observation_wins.1 [] (str "145") (str "0000601")
      [(str "0000601", str "AAA"), (str "0000601", str "BBB")],
    by decide,
    claim_C4_last_observation_wins.2 [(str "145", [(str "0000601", str "EGD3NF")])]
      (str "145") (str "0000601") (str "EGD3NF") (by decide)⟩

/-- A field that survives the cache file round trip unchanged: it contains
no comma (the record separator) and no whitespace (which line stripping
would remove at a line end). -/
def cleanField (s : Str) : Bool :=
  s.all (fun c => !(c == ',' || c.isWhitespace))

/-- Inner dictionary fit for the round trip: at least one entry (an
imageset with none is not serialized at all), duplicate-free image
numbers (true of every Python dict), and clean fields. -/
abbrev goodInner (inner : List (Str × Str)) : Prop :=
  inner ≠ [] ∧ (inner.map Prod.fst).Nodup ∧
    ∀ q ∈ inner, cleanField q.1 = true ∧ cleanField q.2 = true

/-- Cache fit for the round trip: duplicate-free imageset ids (true of
every Python dict), clean ids, and good inner dictionaries. -/
abbrev goodCache (c : SuffixCache) : Prop :=
  (c.map Prod.fst).Nodup ∧ ∀ p ∈ c, cleanField p.1 = true ∧ goodInner p.2

lemma cleanField_no_comma {s : Str} (h : cleanField s = true) : ',' ∉ s := by
  intro hm
  have := (List.all_eq_true.mp h) ',' hm
  simp at this

lemma cleanField_no_space {s : Str} (h : cleanField s = true) :
    ∀ c ∈ s, c.isWhitespace = false := by
  intro c hc
  have := (List.all_eq_true.mp h) c hc
  simp at this
  exact this.2

lemma dropWhile_eq_self_of_none {p : Char → Bool} {s : Str}
    (h : ∀ c ∈ s, p c = false) : s.dropWhile p = s := by
  cases s with
  | nil => rfl
  | cons c rest =>
    rw [List.dropWhile_cons_of_neg]
    simp [h c (by simp)]

lemma pyStrip_eq_self {s : Str} (h : ∀ c ∈ s, c.isWhitespace = false) :
    pyStrip s = s := by
  unfold pyStrip
  rw [dropWhile_eq_self_of_none h,
    dropWhile_eq_self_of_none (fun c hc => h c (List.mem_reverse.mp hc)),
    List.reverse_reverse]

lemma splitChar_no_sep {sep : Char} {xs : Str} (h : sep ∉ xs) :
    splitChar sep xs = [xs] := by
  induction xs with
  | nil => rfl
  | cons c rest ih =>
    have hc : ¬(c = sep) := fun e => h (e ▸ List.mem_cons_self c rest)
    have hr : sep ∉ rest := fun m => h (List.mem_cons_of_mem c m)
    simp [splitChar, hc, ih hr]

lemma splitChar_append_sep {sep : Char} {xs ys : Str} (h : sep ∉ xs) :
    splitChar sep (xs ++ sep :: ys) = xs :: splitChar sep ys := by
  induction xs with
  | nil => simp [splitChar]
  | cons c rest ih =>
    have hc : ¬(c = sep) := fun e => h (e ▸ List.mem_cons_self c rest)
    have hr : sep ∉ rest := fun m => h (List.mem_cons_of_mem c m)
    rw [List.cons_append]
    simp [splitChar, hc, ih hr]

lemma parseCacheLine_triple {id n s : Str} (hid : cleanField id = true)
    (hn : cleanField n = true) (hs : cleanField s = true) :
    parseCacheLine (id ++ ',' :: (n ++ ',' :: s)) = some (id, n, s) := by
  have hws : ∀ c ∈ id ++ ',' :: (n ++ ',' :: s), c.isWhitespace = false := by
    intro c hc
    rcases List.mem_append.mp hc with h1 | h2
    · exact cleanField_no_space hid c h1
    · rcases List.mem_cons.mp h2 with h3 | h4
      · subst h3; rfl
      · rcases List.mem_append.mp h4 with h5 | h6
        · exact cleanField_no_space hn c h5
        · rcases List.mem_cons.mp h6 with h7 | h8
          · subst h7; rfl
          · exact cleanField_no_space hs c h8
  unfold parseCacheLine
  rw [pyStrip_eq_self hws, splitChar_append_sep (cleanField_no_comma hid),
    splitChar_append_sep (cleanField_no_comma hn),
    splitChar_no_sep (cleanField_no_comma hs)]

/-- The cache-file lines serialized for one imageset. -/
def linesOf (id : Str) (inner : List (Str × Str)) : List Str :=
  inner.map (fun q => id ++ ',' :: (q.1 ++ ',' :: q.2))

lemma saveCacheLines_cons (id : Str) (inner : List (Str × Str))
    (rest : SuffixCache) :
    saveCacheLines ((id, inner) :: rest) = linesOf id inner ++ saveCacheLines rest := by
  simp [saveCacheLines, linesOf]

lemma loadInto_append (m : SuffixCache) (l1 l2 : List Str) :
    loadInto m (l1 ++ l2) = loadInto (loadInto m l1) l2 := by
  simp [loadInto, List.foldl_append]

lemma dictSet_append {α : Type} (d : List (Str × α)) (k : Str) (v : α)
    (h : k ∉ d.map Prod.fst) : dictSet d k v = d ++ [(k, v)] := by
  induction d with
  | nil => rfl
  | cons p rest ih =>
    obtain ⟨k0, v0⟩ := p
    have hk : ¬(k = k0) := by
      intro e
      subst e
      exact h (List.mem_cons_self _ _)
    simp only [dictSet, if_neg hk, List.cons_append, List.cons.injEq, true_and]
    exact ih (fun m => h (List.mem_cons_of_mem _ m))

lemma dictSetFold_append (qs : List (Str × Str)) :
    ∀ d : List (Str × Str), (∀ k ∈ qs.map Prod.fst, k ∉ d.map Prod.fst) →
      (qs.map Prod.fst).Nodup →
      qs.foldl (fun dd q => dictSet dd q.1 q.2) d = d ++ qs := by
  induction qs with
  | nil =>
    intro d _ _
    simp
  | cons q rest ih =>
    obtain ⟨n, s⟩ := q
    intro d hdisj hnd
    have hn : (n :: rest.map Prod.fst).Nodup := by simpa using hnd
    have h1 : n ∉ d.map Prod.fst := hdisj n (by simp)
    simp only [List.foldl_cons]
    rw [dictSet_append d n s h1, ih (d ++ [(n, s)])
      (by
        intro k hk
        rw [List.map_append, List.mem_append]
        rintro (h2 | h3)
        · exact hdisj k (List.mem_cons_of_mem _ hk) h2
        · have hkn : k = n := by simpa using h3
          subst hkn
          exact (List.nodup_cons.mp hn).1 hk)
      (List.nodup_cons.mp hn).2]
    simp

lemma cacheObserve_fresh (m : SuffixCache) (id n s : Str)
    (h : id ∉ m.map Prod.fst) :
    cacheObserve m id n s = m ++ [(id, [(n, s)])] := by
  induction m with
  | nil => rfl
  | cons p rest ih =>
    obtain ⟨id0, inner0⟩ := p
    have hk : ¬(id = id0) := by
      intro e
      subst e
      exact h (List.mem_cons_self _ _)
    simp only [cacheObserve, if_neg hk, List.cons_append, List.cons.injEq, true_and]
    exact ih (fun mem => h (List.mem_cons_of_mem _ mem))

lemma cacheObserve_last (m : SuffixCache) (id : Str) (d : List (Str × Str))
    (n s : Str) (h : id ∉ m.map Prod.fst) :
    cacheObserve (m ++ [(id, d)]) id n s = m ++ [(id, dictSet d n s)] := by
  induction m with
  | nil => simp [cacheObserve]
  | cons p rest ih =>
    obtain ⟨id0, inner0⟩ := p
    have hk : ¬(id = id0) := by
      intro e
      subst e
      exact h (List.mem_cons_self _ _)
    simp only [List.cons_append, cacheObserve, if_neg hk, List.cons.injEq, true_and]
    exact ih (fun mem => h (List.mem_cons_of_mem _ mem))

lemma loadInto_linesOf_go (m : SuffixCache) (id : Str) (d qs : List (Str × Str))
    (hid : cleanField id = true)
    (hq : ∀ q ∈ qs, cleanField q.1 = true ∧ cleanField q.2 = true)
    (hm : id ∉ m.map Prod.fst) :
    loadInto (m ++ [(id, d)]) (linesOf id qs) =
      m ++ [(id, qs.foldl (fun dd q => dictSet dd q.1 q.2) d)] := by
  induction qs generalizing d with
  | nil => simp [linesOf, loadInto]
  | cons q rest ih =>
    obtain ⟨n, s⟩ := q
    have hqn := hq (n, s) (by simp)
    have step : loadInto (m ++ [(id, d)]) (linesOf id ((n, s) :: rest)) =
        loadInto (cacheObserve (m ++ [(id, d)]) id n s) (linesOf id rest) := by
      simp only [linesOf, List.map_cons, loadInto, List.foldl_cons,
        parseCacheLine_triple hid hqn.1 hqn.2]
    rw [step, cacheObserve_last m id d n s hm]
    have := ih (dictSet d n s) (fun q hqq => hq q (by simp [hqq]))
    simpa using this

lemma loadInto_linesOf (m : SuffixCache) (id : Str) (inner : List (Str × Str))
    (hid : cleanField id = true) (hinner : goodInner inner)
    (hm : id ∉ m.map Prod.fst) :
    loadInto m (linesOf id inner) = m ++ [(id, inner)] := by
  obtain ⟨hne, hnd, hq⟩ := hinner
  cases inner with
  | nil => exact absurd rfl hne
  | cons q rest =>
    obtain ⟨n, s⟩ := q
    have hqn := hq (n, s) (by simp)
    have step : loadInto m (linesOf id ((n, s) :: rest)) =
        loadInto (cacheObserve m id n s) (linesOf id rest) := by
      simp only [linesOf, List.map_cons, loadInto, List.foldl_cons,
        parseCacheLine_triple hid hqn.1 hqn.2]
    rw [step, cacheObserve_fresh m id n s hm,
      loadInto_linesOf_go m id [(n, s)] rest hid
        (fun q hqq => hq q (by simp [hqq])) hm]
    have hn2 : (n :: rest.map Prod.fst).Nodup := by simpa using hnd
    have : rest.foldl (fun dd q => dictSet dd q.1 q.2) [(n, s)] = [(n, s)] ++ rest := by
      refine dictSetFold_append rest [(n, s)] ?_ (List.nodup_cons.mp hn2).2
      intro k hk
      simp only [List.map_cons, List.map_nil, List.mem_singleton]
      intro e
      subst e
      exact (List.nodup_cons.mp hn2).1 hk
    rw [this]
    simp

lemma loadInto_save (c : SuffixCache) :
    ∀ m : SuffixCache, (c.map Prod.fst).Nodup →
      (∀ p ∈ c, cleanField p.1 = true ∧ goodInner p.2) →
      (∀ k ∈ c.map Prod.fst, k ∉ m.map Prod.fst) →
      loadInto m (saveCacheLines c) = m ++ c := by
  induction c with
  | nil =>
    intro m _ _ _
    simp [saveCacheLines, loadInto]
  | cons p rest ih =>
    obtain ⟨id, inner⟩ := p
    intro m hnd hp hdisj
    simp only [List.map_cons, List.nodup_cons] at hnd
    have hpid := hp (id, inner) (by simp)
    rw [saveCacheLines_cons, loadInto_append,
      loadInto_linesOf m id inner hpid.1 hpid.2 (hdisj id (by simp))]
    rw [ih (m ++ [(id, inner)]) hnd.2 (fun q hq => hp q (by simp [hq]))
      (by
        intro k hk
        simp only [List.map_append, List.mem_append]
        rintro (h1 | h2)
        · exact hdisj k (by simp [hk]) h1
        · simp at h2
          subst h2
          exact hnd.1 hk)]
    simp

/-- C5 counterexample: a cache whose suffix token `"EGD3NF "` carries a
trailing space — and so contains no comma or newline — does not survive
the round trip: the loader strips each line, so the reloaded token is
`"EGD3NF"` and the reloaded mapping differs from the one saved. -/
theorem claim_C5_counterexample :
    loadCacheLines (saveCacheLines [(str "145", [(str "0000601", str "EGD3NF ")])]) ≠
      [(str "145", [(str "0000601", str "EGD3NF ")])] := by
  decide

/-- C5 (amended): serializing a suffix cache to disk (one line
`imagesetId,imageNumber,suffixToken` per entry) and reloading it yields a
mapping identical to the one saved, for every cache whose identifiers and
tokens contain no comma and no whitespace characters (not only no
newline: line stripping on load would otherwise alter a field touching a
line end) and in which every imageset has at least one entry; in
particular, loading the cache file line `"145,0000601,EGD3NF"` yields a
mapping that resolves imageset `"145"`, image `"0000601"` to `"EGD3NF"`. -/
theorem claim_C5_cache_round_trip (c : SuffixCache) (hg : goodCache c) :
    loadCacheLines (saveCacheLines c) = c := by
  have h := loadInto_save c [] hg.1 hg.2 (by
    intro k _ hm
    simp at hm)
  simpa [loadCacheLines] using h

/-- C5 witness: the round trip of the one-entry cache serialized as the
single line `"145,0000601,EGD3NF"`, which the claim names, and the
resolution of that key in the reloaded mapping. -/
theorem claim_C5_witness :
    goodCache [(str "145", [(str "0000601", str "EGD3NF")])] ∧
    loadCacheLines (saveCacheLines [(str "145", [(str "0000601", str "EGD3NF")])]) =
      [(str "145", [(str "0000601", str "EGD3NF")])] ∧
    saveCacheLines [(str "145", [(str "0000601", str "EGD3NF")])] =
      [str "145,0000601,EGD3NF"] ∧
    cacheResolve (loadCacheLines [str "145,0000601,EGD3NF"])
      (str "145") (str "0000601") = some (str "EGD3NF") :=
  ⟨by decide,
    claim_C5_cache_round_trip [(str "145", [(str "0000601", str "EGD3NF")])] (by decide),
    by decide,
    by decide⟩

/-- The metadata regex `image-(\d+)\.jpg,\s*(\d+),\s*(\d+)` matched at the
start of `s` (`url-yolo-converter.py` line 122); every quantifier in the
pattern is determinate (digit runs are bounded by non-digit literals), so
greedy maximal munch is exact. Returns the number, width and height
digit groups. -/
def matchMetaAt (s : Str) : Option (Str × Str × Str) :=
  match dropExact (str "image-") s with
  | none => none
  | some r1 =>
    match takeDigits r1 with
    | (num, r2) =>
      if num = [] then none
      else
        match dropExact (str ".jpg,") r2 with
        | none => none
        | some r3 =>
          match takeDigits (r3.dropWhile Char.isWhitespace) with
          | (w, r5) =>
            if w = [] then none
            else
              match dropExact (str ",") r5 with
              | none => none
              | some r6 =>
                match takeDigits (r6.dropWhile Char.isWhitespace) with
                | (h, _) => if h = [] then none else some (num, w, h)

/-- `re.search` for the metadata pattern: leftmost match, trying every
start position from the left. -/
def reSearchMeta : Str → Option (Str × Str × Str)
  | [] => none
  | c :: rest =>
    match matchMetaAt (c :: rest) with
    | some r => some r
    | none => reSearchMeta rest

/-- One entry of the YAML annotation source: its `meta` string and its
list of raw annotation lines. -/
structure ImgEntry where
  meta : Str
  annotations : List Str

/-- One iteration of the annotation loop of `process_yaml_to_yolo`
(`url-yolo-converter.py` lines 145-149): the line is parsed; a parsed
annotation is converted and appended, a `none` (fewer than six integer
fields) is skipped, and an uncaught parse exception propagates. -/
def annStep (w h : ℚ) (cm : List (Int × Int)) (acc : List Str)
    (line : Str) : Except Unit (List Str) := do
  match (← parseAnnotationFormat line) with
  | some a => pure (acc ++ [convertToYoloFormat a w h cm])
  | none => pure acc

/-- The annotation loop of `process_yaml_to_yolo` (lines 144-149) over all
lines of one record. -/
def processEntryAnns (anns : List Str) (w h : ℚ)
    (cm : List (Int × Int)) : Except Unit (List Str) :=
  anns.foldlM (annStep w h cm) []

/-- Embedding of `process_yaml_to_yolo` (`url-yolo-converter.py` lines
98-161). The network-dependent `get_actual_image_url` is modelled by the
oracle `resolveUrl` from image number to URL, and URL verification by the
oracle `verOk`; a failed verification skips the record (lines 133-141).
Returns the `(image_url, label_path)` pairs together with the label files
written (path and content lines); an uncaught annotation parse exception
aborts the whole batch. `entryStep` is one iteration of the loop over
records (lines 117-159), `processYamlToYolo` the whole loop. -/
def entryStep (outputDir : Str) (resolveUrl : Str → Str)
    (verifyUrls : Bool) (verOk : Str → Bool) (cm : List (Int × Int))
    (acc : List (Str × Str) × List (Str × List Str)) (e : ImgEntry) :
    Except Unit (List (Str × Str) × List (Str × List Str)) :=
  match reSearchMeta e.meta with
  | none => pure acc
  | some (num, wd, hd) => do
    let url := resolveUrl num
    if verifyUrls && !(verOk url) then pure acc
    else do
      let anns ← processEntryAnns e.annotations (digitsToNat wd : ℚ)
        (digitsToNat hd : ℚ) cm
      match anns with
      | [] => pure acc
      | _ =>
        let path := pyPathJoin outputDir (str "image-" ++ num ++ str ".txt")
        pure (acc.1 ++ [(url, path)], acc.2 ++ [(path, anns)])

def processYamlToYolo (entries : List ImgEntry) (outputDir : Str)
    (resolveUrl : Str → Str) (verifyUrls : Bool) (verOk : Str → Bool)
    (cm : List (Int × Int)) :
    Except Unit (List (Str × Str) × List (Str × List Str)) :=
  entries.foldlM (entryStep outputDir resolveUrl verifyUrls verOk cm) ([], [])

/-- C7 counterexample: a batch whose first record carries the annotation
line `"abc, 1, 2, 3, 4, 0"` — a non-integer first field — aborts with an
uncaught error instead of skipping that line: the following record, whose
metadata and annotations are well formed, is never processed. -/
theorem claim_C7_counterexample :
    processYamlToYolo
        [⟨str "image-0001.jpg, 100, 100", [str "abc, 1, 2, 3, 4, 0"]⟩,
          ⟨str "image-0002.jpg, 100, 100", []⟩]
        (str "out") (fun n => str "u/" ++ n) false (fun _ => true) [] =
      Except.error () := by
  rfl

/-- An annotation line all of whose comma-separated fields parse as
integers (the condition under which `parse_annotation_format` cannot
raise). -/
def intFieldsLine (l : Str) : Bool :=
  (splitChar ',' l).all (fun f => (pyInt (pyStrip f)).isSome)

lemma exceptFoldlM_cons {β σ : Type} (f : σ → β → Except Unit σ) (b : σ)
    (a : β) (l : List β) :
    List.foldlM f b (a :: l) = f b a >>= fun b2 => List.foldlM f b2 l := rfl

lemma exceptFoldlM_append {β σ : Type} (f : σ → β → Except Unit σ) (b : σ)
    (l1 l2 : List β) :
    List.foldlM f b (l1 ++ l2) =
      List.foldlM f b l1 >>= fun b2 => List.foldlM f b2 l2 := by
  induction l1 generalizing b with
  | nil => simp [List.foldlM]
  | cons a l ih =>
    rw [List.cons_append, exceptFoldlM_cons, exceptFoldlM_cons]
    cases f b a with
    | error e => rfl
    | ok b2 => simpa using ih b2

lemma mapM_pyIntField_ok (fields : List Str)
    (h : ∀ f ∈ fields, (pyInt (pyStrip f)).isSome = true) :
    ∃ vs : List Int, fields.mapM pyIntField = Except.ok vs ∧
      vs.length = fields.length := by
  induction fields with
  | nil => exact ⟨[], rfl, rfl⟩
  | cons f rest ih =>
    obtain ⟨vs, hvs, hlen⟩ := ih (fun g hg => h g (List.mem_cons_of_mem _ hg))
    obtain ⟨v, hv⟩ := Option.isSome_iff_exists.mp (h f (List.mem_cons_self _ _))
    refine ⟨v :: vs, ?_, by simp [hlen]⟩
    rw [List.mapM_cons, hvs]
    simp only [pyIntField, hv]
    rfl

lemma parseAnnotationFormat_ok (l : Str) (h : intFieldsLine l = true) :
    ∃ ob, parseAnnotationFormat l = Except.ok ob := by
  obtain ⟨vs, hvs, _⟩ := mapM_pyIntField_ok (splitChar ',' l)
    (fun f hf => List.all_eq_true.mp h f hf)
  unfold parseAnnotationFormat
  rw [hvs]
  rcases vs with _ | ⟨c, _ | ⟨a, _ | ⟨b, _ | ⟨x, _ | ⟨d, _ | ⟨e, t⟩⟩⟩⟩⟩⟩ <;>
    exact ⟨_, rfl⟩

lemma parseAnnotationFormat_short (l : Str) (h : intFieldsLine l = true)
    (hlen : (splitChar ',' l).length < 6) :
    parseAnnotationFormat l = Except.ok none := by
  obtain ⟨vs, hvs, hvl⟩ := mapM_pyIntField_ok (splitChar ',' l)
    (fun f hf => List.all_eq_true.mp h f hf)
  unfold parseAnnotationFormat
  rw [hvs]
  rw [← hvl] at hlen
  rcases vs with _ | ⟨c, _ | ⟨a, _ | ⟨b, _ | ⟨x, _ | ⟨d, _ | ⟨e, t⟩⟩⟩⟩⟩⟩ <;>
    first
      | rfl
      | (exfalso; simp at hlen; omega)

lemma annStep_ok (w h : ℚ) (cm : List (Int × Int)) (acc : List Str)
    (l : Str) (hl : intFieldsLine l = true) :
    ∃ acc2, annStep w h cm acc l = Except.ok acc2 := by
  obtain ⟨ob, hob⟩ := parseAnnotationFormat_ok l hl
  unfold annStep
  rw [hob]
  cases ob <;> exact ⟨_, rfl⟩

lemma annStep_skip (w h : ℚ) (cm : List (Int × Int)) (acc : List Str)
    (bad : Str) (hb : intFieldsLine bad = true)
    (hlen : (splitChar ',' bad).length < 6) :
    annStep w h cm acc bad = Except.ok acc := by
  unfold annStep
  rw [parseAnnotationFormat_short bad hb hlen]
  rfl

lemma foldlM_annStep_ok (w h : ℚ) (cm : List (Int × Int)) (anns : List Str) :
    ∀ acc, (∀ l ∈ anns, intFieldsLine l = true) →
      ∃ out, List.foldlM (annStep w h cm) acc anns = Except.ok out := by
  induction anns with
  | nil =>
    intro acc _
    exact ⟨acc, rfl⟩
  | cons l rest ih =>
    intro acc hall
    obtain ⟨acc2, h2⟩ := annStep_ok w h cm acc l (hall l (List.mem_cons_self _ _))
    obtain ⟨out, hout⟩ := ih acc2 (fun g hg => hall g (List.mem_cons_of_mem _ hg))
    refine ⟨out, ?_⟩
    rw [exceptFoldlM_cons, h2]
    simpa using hout

lemma entryStep_ok (outputDir : Str) (resolveUrl : Str → Str)
    (verifyUrls : Bool) (verOk : Str → Bool) (cm : List (Int × Int))
    (acc : List (Str × Str) × List (Str × List Str)) (e : ImgEntry)
    (he : ∀ l ∈ e.annotations, intFieldsLine l = true) :
    ∃ acc2, entryStep outputDir resolveUrl verifyUrls verOk cm acc e =
      Except.ok acc2 := by
  cases hm : reSearchMeta e.meta with
  | none =>
    refine ⟨acc, ?_⟩
    simp [entryStep, hm]
    rfl
  | some r =>
    obtain ⟨num, wd, hd⟩ := r
    cases hvb : verifyUrls && !(verOk (resolveUrl num)) with
    | true =>
      refine ⟨acc, ?_⟩
      simp [entryStep, hm, hvb]
      rfl
    | false =>
      obtain ⟨anns, hanns⟩ := foldlM_annStep_ok (digitsToNat wd : ℚ)
        (digitsToNat hd : ℚ) cm e.annotations [] he
      have hpe : processEntryAnns e.annotations (digitsToNat wd : ℚ)
          (digitsToNat hd : ℚ) cm = Except.ok anns := hanns
      cases anns with
      | nil =>
        refine ⟨acc, ?_⟩
        simp [entryStep, hm, hvb, hpe]
        rfl
      | cons a t =>
        refine ⟨(acc.1 ++ [(resolveUrl num,
            pyPathJoin outputDir (str "image-" ++ num ++ str ".txt"))],
          acc.2 ++ [(pyPathJoin outputDir (str "image-" ++ num ++ str ".txt"),
            a :: t)]), ?_⟩
        simp [entryStep, hm, hvb, hpe]
        rfl

lemma exceptBind_congr {σ τ : Type} (x : Except Unit σ)
    (k1 k2 : σ → Except Unit τ) (h : ∀ a, k1 a = k2 a) :
    (x >>= k1) = (x >>= k2) := by
  cases x with
  | error e => rfl
  | ok a => simpa using h a

lemma entryStep_meta_skip (outputDir : Str) (resolveUrl : Str → Str)
    (verifyUrls : Bool) (verOk : Str → Bool) (cm : List (Int × Int))
    (acc : List (Str × Str) × List (Str × List Str)) (e : ImgEntry)
    (hm : reSearchMeta e.meta = none) :
    entryStep outputDir resolveUrl verifyUrls verOk cm acc e = Except.ok acc := by
  simp [entryStep, hm]
  rfl

lemma foldlM_entryStep_ok (outputDir : Str) (resolveUrl : Str → Str)
    (verifyUrls : Bool) (verOk : Str → Bool) (cm : List (Int × Int))
    (entries : List ImgEntry) :
    ∀ acc, (∀ e ∈ entries, ∀ l ∈ e.annotations, intFieldsLine l = true) →
      ∃ out, List.foldlM (entryStep outputDir resolveUrl verifyUrls verOk cm)
        acc entries = Except.ok out := by
  induction entries with
  | nil =>
    intro acc _
    exact ⟨acc, rfl⟩
  | cons e rest ih =>
    intro acc hall
    obtain ⟨acc2, h2⟩ := entryStep_ok outputDir resolveUrl verifyUrls verOk cm
      acc e (hall e (List.mem_cons_self _ _))
    obtain ⟨out, hout⟩ := ih acc2 (fun g hg => hall g (List.mem_cons_of_mem _ hg))
    refine ⟨out, ?_⟩
    rw [exceptFoldlM_cons, h2]
    simpa using hout

/-- C7 (amended): an annotation line whose comma-separated fields all
parse as integers but number fewer than six causes only that line to be
skipped (removing it leaves the record's conversion unchanged); a
metadata string that matches no expected pattern causes only that record
to be skipped; and a batch all of whose annotation lines have
integer-parseable fields always completes without error. An annotation
line with a non-integer field, however, raises an uncaught error that
aborts the overall batch, contrary to the original claim. -/
theorem claim_C7_parse_error_handling :
    (∀ (pre post : List Str) (bad : Str) (w h : ℚ) (cm : List (Int × Int)),
      intFieldsLine bad = true → (splitChar ',' bad).length < 6 →
      processEntryAnns (pre ++ bad :: post) w h cm =
        processEntryAnns (pre ++ post) w h cm) ∧
    (∀ (pre post : List ImgEntry) (e : ImgEntry) (outputDir : Str)
      (resolveUrl : Str → Str) (verifyUrls : Bool) (verOk : Str → Bool)
      (cm : List (Int × Int)),
      reSearchMeta e.meta = none →
      processYamlToYolo (pre ++ e :: post) outputDir resolveUrl verifyUrls verOk cm =
        processYamlToYolo (pre ++ post) outputDir resolveUrl verifyUrls verOk cm) ∧
    (∀ (entries : List ImgEntry) (outputDir : Str) (resolveUrl : Str → Str)
      (verifyUrls : Bool) (verOk : Str → Bool) (cm : List (Int × Int)),
      (∀ e ∈ entries, ∀ l ∈ e.annotations, intFieldsLine l = true) →
      ∃ out, processYamlToYolo entries outputDir resolveUrl verifyUrls verOk cm =
        Except.ok out) := by
  refine ⟨?_, ?_, ?_⟩
  · intro pre post bad w h cm hb hlen
    unfold processEntryAnns
    rw [exceptFoldlM_append, exceptFoldlM_append]
    apply exceptBind_congr
    intro a
    rw [exceptFoldlM_cons, annStep_skip w h cm a bad hb hlen]
    rfl
  · intro pre post e outputDir resolveUrl verifyUrls verOk cm hm
    unfold processYamlToYolo
    rw [exceptFoldlM_append, exceptFoldlM_append]
    apply exceptBind_congr
    intro a
    rw [exceptFoldlM_cons,
      entryStep_meta_skip outputDir resolveUrl verifyUrls verOk cm a e hm]
    rfl
  · intro entries outputDir resolveUrl verifyUrls verOk cm hall
    exact foldlM_entryStep_ok outputDir resolveUrl verifyUrls verOk cm
      entries ([], []) hall

/-- C7 witness: the three parts of the theorem applied at concrete
inputs — dropping a three-field integer line from a record, dropping a
record with unmatchable metadata, and completing a batch of well-formed
lines. -/
theorem claim_C7_witness :
    (intFieldsLine (str "1, 2, 3") = true ∧
      (splitChar ',' (str "1, 2, 3")).length < 6 ∧
      processEntryAnns [str "10, 1, 2, 3, 4, 0", str "1, 2, 3"] 100 100 [] =
        processEntryAnns [str "10, 1, 2, 3, 4, 0"] 100 100 []) ∧
    (reSearchMeta (str "nonsense") = none ∧
      processYamlToYolo [⟨str "nonsense", [str "zzz"]⟩] (str "out")
          (fun n => n) false (fun _ => true) [] =
        processYamlToYolo [] (str "out") (fun n => n) false (fun _ => true) []) ∧
    (∃ out, processYamlToYolo [⟨str "image-0001.jpg, 100, 100", [str "1, 2, 3"]⟩]
        (str "out") (fun n => n) false (fun _ => true) [] = Except.ok out) :=
  ⟨⟨by decide, by decide,
      claim_C7_parse_error_handling.1 [str "10, 1, 2, 3, 4, 0"] []
        (str "1, 2, 3") 100 100 [] (by decide) (by decide)⟩,
    ⟨by decide,
      claim_C7_parse_error_handling.2.1 [] [] ⟨str "nonsense", [str "zzz"]⟩
        (str "out") (fun n => n) false (fun _ => true) [] (by decide)⟩,
    claim_C7_parse_error_handling.2.2
      [⟨str "image-0001.jpg, 100, 100", [str "1, 2, 3"]⟩] (str "out")
      (fun n => n) false (fun _ => true) []
      (by
        intro e he l hl
        simp at he
        subst he
        simp at hl
        subst hl
        decide)⟩

/-! ## ImageFetcher (`download.py`) -/

/-- Outcome of one `download_image` call: already present (skip), written,
non-200 status, or a transport exception. -/
inductive FetchOutcome where
  | skipped
  | downloaded
  | failedStatus (code : Nat)
  | failed
deriving DecidableEq, Repr

/-- The filesystem visible to the fetcher: path to file content. -/
abbrev FileSys := List (Str × Str)

/-- Python `os.path.basename`: everything after the last slash. -/
def pyBasename (s : Str) : Str :=
  (s.reverse.takeWhile (fun c => c ≠ '/')).reverse

/-- Python `url.split('?')[0]`: everything before the first question mark. -/
def stripQuery (s : Str) : Str := s.takeWhile (fun c => c ≠ '?')

/-- Embedding of `download_image` (`download.py` lines 16-33): the
destination filename is the basename of the URL with its query string
stripped; when the destination path already exists the fetch is skipped
with the filesystem untouched, otherwise one request is made through the
`net` oracle (status code and body, or `none` for a transport error) and
a 200 response is written. The third component counts network requests. -/
def downloadImage (imageDir : Str) (fs : FileSys)
    (net : Str → Option (Nat × Str)) (url : Str) :
    FetchOutcome × FileSys × Nat :=
  let filename := pyBasename (stripQuery url)
  let filepath := pyPathJoin imageDir filename
  if (dictGet fs filepath).isSome then (.skipped, fs, 0)
  else
    match net url with
    | some (code, body) =>
      if code = 200 then (.downloaded, dictSet fs filepath body, 1)
      else (.failedStatus code, fs, 1)
    | none => (.failed, fs, 1)

/-- C8: for every URL whose destination path — the fetch directory joined
with the basename of the URL after stripping any query string — already
holds some content, the fetcher performs no network request, records a
skipped outcome, and leaves the filesystem (hence that content) unchanged,
whatever the network oracle would answer. -/
theorem claim_C8_skip_if_exists (imageDir : Str) (fs : FileSys)
    (net : Str → Option (Nat × Str)) (url content : Str)
    (h : dictGet fs (pyPathJoin imageDir (pyBasename (stripQuery url))) =
      some content) :
    downloadImage imageDir fs net url = (.skipped, fs, 0) ∧
    dictGet (downloadImage imageDir fs net url).2.1
        (pyPathJoin imageDir (pyBasename (stripQuery url))) = some content := by
  have hs : (dictGet fs (pyPathJoin imageDir (pyBasename (stripQuery url)))).isSome = true := by
    rw [h]
    rfl
  constructor
  · unfold downloadImage
    rw [if_pos hs]
  · unfold downloadImage
    rw [if_pos hs]
    exact h

/-- C8 witness: the theorem applied to a filesystem already holding
`imgs/image-0000601_EGD3NF.jpg`, fetched from a URL carrying a query
string. -/
theorem claim_C8_witness :
    (dictGet [(str "imgs/image-0000601_EGD3NF.jpg", str "JPEGDATA")]
        (pyPathJoin (str "imgs")
          (pyBasename (stripQuery (str "http://host/a/image-0000601_EGD3NF.jpg?tok=1")))) =
      some (str "JPEGDATA")) ∧
    (downloadImage (str "imgs")
        [(str "imgs/image-0000601_EGD3NF.jpg", str "JPEGDATA")]
        (fun _ => none) (str "http://host/a/image-0000601_EGD3NF.jpg?tok=1") =
      (.skipped, [(str "imgs/image-0000601_EGD3NF.jpg", str "JPEGDATA")], 0) ∧
      dictGet (downloadImage (str "imgs")
          [(str "imgs/image-0000601_EGD3NF.jpg", str "JPEGDATA")]
          (fun _ => none) (str "http://host/a/image-0000601_EGD3NF.jpg?tok=1")).2.1
        (pyPathJoin (str "imgs")
          (pyBasename (stripQuery (str "http://host/a/image-0000601_EGD3NF.jpg?tok=1")))) =
        some (str "JPEGDATA")) :=
  ⟨by decide,
    claim_C8_skip_if_exists (str "imgs")
      [(str "imgs/image-0000601_EGD3NF.jpg", str "JPEGDATA")]
      (fun _ => none) (str "http://host/a/image-0000601_EGD3NF.jpg?tok=1")
      (str "JPEGDATA") (by decide)⟩

/-! ## DatasetAssembler manifest (`url-yolo-converter.py`) -/

/-- The `dataset.yaml` document written by `create_url_dataset`
(`url-yolo-converter.py` lines 242-252). -/
structure DatasetYaml where
  path : Str
  train : Str
  val : Str
  test : Str
  nc : Nat
  names : List (Nat × Str)
deriving DecidableEq, Repr

/-- Embedding of the manifest construction (lines 242-249): `nc` is the
entry count of a truthy class mapping and 2 otherwise, while `names` is
always the enumeration of `["red", "blue"]`. -/
def datasetYamlOf (outputDirAbs : Str) (classMapping : List (Int × Int)) :
    DatasetYaml :=
  { path := outputDirAbs
    train := str "train.txt"
    val := str "val.txt"
    test := []
    nc := if classMapping.isEmpty then 2 else classMapping.length
    names := [(0, str "red"), (1, str "blue")] }

/-- The class mapping hardcoded in `main` (`url-yolo-converter.py` lines
334-338): raw classes 1 and 3 map to 1 (blue), raw class 10 to 0 (red). -/
def defaultClassMapping : List (Int × Int) := [(1, 1), (3, 1), (10, 0)]

/-- C9: under the default class mapping `{1:1, 3:1, 10:0}` the emitted
manifest has `nc = 3` (the mapping's entry count) while its `names` table
always has exactly 2 entries, so the claimed invariant
`nc = number of names entries` fails: the code writes an inconsistent
manifest for every mapping whose entry count differs from 2. -/
theorem claim_C9_nc_names_mismatch (outputDirAbs : Str) :
    (datasetYamlOf outputDirAbs defaultClassMapping).nc = 3 ∧
    (datasetYamlOf outputDirAbs defaultClassMapping).names.length = 2 ∧
    (datasetYamlOf outputDirAbs defaultClassMapping).nc ≠
      (datasetYamlOf outputDirAbs defaultClassMapping).names.length := by
  refine ⟨rfl, rfl, ?_⟩
  simp [datasetYamlOf, defaultClassMapping]

/-! ## URL updater (`url-fixer.py` lines 82-118) -/

lemma dropExact_length {p s r : Str} (h : dropExact p s = some r) :
    s.length = p.length + r.length := by
  induction p generalizing s with
  | nil =>
    cases h
    simp
  | cons a ps ih =>
    cases s with
    | nil => exact absurd h (by simp [dropExact])
    | cons c cs =>
      by_cases hc : c = a
      · simp only [dropExact, if_pos hc] at h
        have := ih h
        simp only [List.length_cons]
        omega
      · simp [dropExact, hc] at h

lemma dropWhile_length_le (p : Char → Bool) (s : Str) :
    (s.dropWhile p).length ≤ s.length := by
  induction s with
  | nil => simp
  | cons c rest ih =>
    by_cases h : p c
    · rw [List.dropWhile_cons_of_pos h]
      exact le_trans ih (by simp)
    · rw [List.dropWhile_cons_of_neg h]

/-- The regular expression `images/1_(\d+)/image-(\d+)\.jpg` matched at
the start of `s` — the pattern of both the `re.search` on line 97 and the
`re.sub` on lines 106-110 of `url-fixer.py`; its greedy digit groups are
bounded by non-digit literals, so maximal munch is exact. Returns the two
digit groups and the remainder after the matched text. -/
def matchUrlAt (s : Str) : Option (Str × Str × Str) :=
  match dropExact (str "images/1_") s with
  | none => none
  | some r1 =>
    if (takeDigits r1).1 = [] then none
    else
      match dropExact (str "/image-") (takeDigits r1).2 with
      | none => none
      | some r3 =>
        if (takeDigits r3).1 = [] then none
        else
          match dropExact (str ".jpg") (takeDigits r3).2 with
          | none => none
          | some r5 => some ((takeDigits r1).1, (takeDigits r3).1, r5)

lemma matchUrlAt_lt {s : Str} {t : Str × Str × Str}
    (h : matchUrlAt s = some t) : t.2.2.length < s.length := by
  unfold matchUrlAt at h
  split at h
  next => exact absurd h (by simp)
  next r1 h1 =>
    split at h
    next => exact absurd h (by simp)
    next hd1 =>
      split at h
      next => exact absurd h (by simp)
      next r3 h2 =>
        split at h
        next => exact absurd h (by simp)
        next hd2 =>
          split at h
          next => exact absurd h (by simp)
          next r5 h3 =>
            cases h
            show r5.length < s.length
            have e1 := dropExact_length h1
            have e2 := dropExact_length h2
            have e3 := dropExact_length h3
            have l1 : (takeDigits r1).2.length ≤ r1.length :=
              dropWhile_length_le Char.isDigit r1
            have l2 : (takeDigits r3).2.length ≤ r3.length :=
              dropWhile_length_le Char.isDigit r3
            have n1 : (str "images/1_").length = 9 := rfl
            have n2 : (str "/image-").length = 7 := rfl
            have n3 : (str ".jpg").length = 4 := rfl
            rw [n1] at e1
            rw [n2] at e2
            rw [n3] at e3
            omega

/-- `re.search(r'images/1_(\d+)/image-(\d+)\.jpg', line)` (`url-fixer.py`
line 97): leftmost match, returning the imageset and image number groups. -/
def reSearchUrl : Str → Option (Str × Str)
  | [] => none
  | c :: rest =>
    match matchUrlAt (c :: rest) with
    | some t => some (t.1, t.2.1)
    | none => reSearchUrl rest

/-- `re.sub(r'(images/1_\d+/image-\d+)\.jpg', r'\1_' + suffix + '.jpg',
line)` (`url-fixer.py` lines 106-110): every non-overlapping leftmost
match is rewritten to its first group followed by an underscore, the
suffix, and `.jpg`; other characters are copied unchanged. -/
def reSubUrl (suffix : Str) : Str → Str
  | [] => []
  | c :: rest =>
    match hm : matchUrlAt (c :: rest) with
    | some t =>
      str "images/1_" ++ t.1 ++ str "/image-" ++ t.2.1 ++ '_' :: suffix
        ++ str ".jpg" ++ reSubUrl suffix t.2.2
    | none => c :: reSubUrl suffix rest
termination_by s => s.length
decreasing_by
  · exact matchUrlAt_lt hm
  · simp

/-- One iteration of the `update_urls_in_file` loop (`url-fixer.py` lines
93-118): the line is stripped; when the URL pattern matches and the
`(imagesetId, imageNumber)` pair has a cached suffix, the substituted line
is written, otherwise the stripped line is written unchanged. -/
def updateLine (suffixes : SuffixCache) (rawLine : Str) : Str :=
  let line := pyStrip rawLine
  match reSearchUrl line with
  | some p =>
    match cacheResolve suffixes p.1 p.2 with
    | some suf => reSubUrl suf line
    | none => line
  | none => line

/-- Embedding of `update_urls_in_file` (`url-fixer.py` lines 82-118): the
input file as its list of lines, each processed and appended to the
output file in order. -/
def updateUrlsInFile (suffixes : SuffixCache) (lines : List Str) : List Str :=
  lines.foldl (fun out l => out ++ [updateLine suffixes l]) []

lemma foldl_append_map {α β : Type} (f : α → β) (l : List α) :
    ∀ acc : List β, l.foldl (fun out a => out ++ [f a]) acc = acc ++ l.map f := by
  induction l with
  | nil =>
    intro acc
    simp
  | cons a rest ih =>
    intro acc
    rw [List.foldl_cons, ih (acc ++ [f a])]
    simp

/-- C10: `update_urls_in_file` writes exactly one output line per input
line, in the same order — no URL is ever dropped: a line whose stripped
text matches the URL pattern and whose `(imagesetId, imageNumber)` pair
resolves to a cached suffix is written as the substitution inserting
`_<suffix>` before `.jpg`, and every other line (no pattern match, or no
suffix resolved) is written unchanged apart from the stripped surrounding
whitespace. -/
theorem claim_C10_one_line_per_line (suffixes : SuffixCache) (lines : List Str) :
    updateUrlsInFile suffixes lines = lines.map (fun l =>
      match reSearchUrl (pyStrip l) with
      | some p =>
        match cacheResolve suffixes p.1 p.2 with
        | some suf => reSubUrl suf (pyStrip l)
        | none => pyStrip l
      | none => pyStrip l) ∧
    (updateUrlsInFile suffixes lines).length = lines.length := by
  have h : updateUrlsInFile suffixes lines = lines.map (updateLine suffixes) := by
    unfold updateUrlsInFile
    rw [foldl_append_map (updateLine suffixes) lines []]
    rfl
  constructor
  · rw [h]
    rfl
  · rw [h, List.length_map]

/-! ## DatasetAssembler split (`url-yolo-converter.py` lines 213-230) -/

/-- Python `int()` truncation toward zero applied to a float. -/
def pyTrunc (q : ℚ) : Int := if q < 0 then -⌊-q⌋ else ⌊q⌋

/-- A Python slice index: negative indices count from the end (clamped at
zero), positive ones are clamped at the length. -/
def pySliceIdx (n : Nat) (k : Int) : Nat :=
  if k < 0 then (k + n).toNat else min k.toNat n

/-- The per-imageset split (`url-yolo-converter.py` lines 215-217):
`split_idx = int(len(pairs) * split_ratio)`, train takes `pairs[:split_idx]`
and val takes `pairs[split_idx:]`. The list is the already shuffled pair
list (`random.shuffle`, line 214, is modelled as a permutation oracle). -/
def splitPairs {α : Type} (r : ℚ) (pairs : List α) : List α × List α :=
  let k := pySliceIdx pairs.length (pyTrunc (r * (pairs.length : ℚ)))
  (pairs.take k, pairs.drop k)

/-- The accumulation of `train_data` and `val_data` across the imageset
loop (`url-yolo-converter.py` lines 189-230): each imageset's shuffled
pair list is split and appended to the running train and val lists. -/
def assembleSplit {α : Type} (r : ℚ) (pairLists : List (List α)) :
    List α × List α :=
  pairLists.foldl (fun acc pairs =>
    (acc.1 ++ (splitPairs r pairs).1, acc.2 ++ (splitPairs r pairs).2)) ([], [])

lemma pyTrunc_eq_floor {q : ℚ} (h : 0 ≤ q) : pyTrunc q = ⌊q⌋ := by
  unfold pyTrunc
  rw [if_neg (not_lt.mpr h)]

lemma pySliceIdx_nonneg (n : Nat) {k : Int} (h : 0 ≤ k) :
    pySliceIdx n k = min k.toNat n := by
  unfold pySliceIdx
  rw [if_neg (not_lt.mpr h)]

lemma splitPairs_eq_take_drop {α : Type} (r : ℚ) (l : List α) (h : 0 ≤ r) :
    splitPairs r l =
      (l.take (min (⌊r * (l.length : ℚ)⌋).toNat l.length),
        l.drop (min (⌊r * (l.length : ℚ)⌋).toNat l.length)) := by
  have hq : 0 ≤ r * (l.length : ℚ) := mul_nonneg h (Nat.cast_nonneg _)
  unfold splitPairs
  rw [pyTrunc_eq_floor hq, pySliceIdx_nonneg _ (Int.floor_nonneg.mpr hq)]

lemma floor_mul_len_le {α : Type} (r : ℚ) (l : List α) (h0 : 0 ≤ r)
    (h1 : r ≤ 1) : ⌊r * (l.length : ℚ)⌋ ≤ (l.length : ℤ) := by
  have hle : r * (l.length : ℚ) ≤ ((l.length : ℤ) : ℚ) := by
    push_cast
    nlinarith [Nat.cast_nonneg (α := ℚ) l.length]
  calc ⌊r * (l.length : ℚ)⌋ ≤ ⌊((l.length : ℤ) : ℚ)⌋ := Int.floor_le_floor hle
    _ = (l.length : ℤ) := Int.floor_intCast _

lemma splitPairs_len {α : Type} (r : ℚ) (l : List α) (h0 : 0 ≤ r)
    (h1 : r ≤ 1) :
    (splitPairs r l).1.length = (⌊r * (l.length : ℚ)⌋).toNat := by
  rw [splitPairs_eq_take_drop r l h0]
  simp only [List.length_take]
  have hub := floor_mul_len_le r l h0 h1
  omega

lemma splitPairs_append {α : Type} (r : ℚ) (l : List α) :
    (splitPairs r l).1 ++ (splitPairs r l).2 = l :=
  List.take_append_drop _ l

lemma assembleSplit_acc {α : Type} (r : ℚ) (ls : List (List α)) :
    ∀ a b : List α,
      ls.foldl (fun acc pairs =>
        (acc.1 ++ (splitPairs r pairs).1, acc.2 ++ (splitPairs r pairs).2)) (a, b) =
      (a ++ (assembleSplit r ls).1, b ++ (assembleSplit r ls).2) := by
  induction ls with
  | nil =>
    intro a b
    simp [assembleSplit]
  | cons l ls ih =>
    intro a b
    simp only [List.foldl_cons]
    rw [ih (a ++ (splitPairs r l).1) (b ++ (splitPairs r l).2)]
    have hR : assembleSplit r (l :: ls) =
        ((splitPairs r l).1 ++ (assembleSplit r ls).1,
          (splitPairs r l).2 ++ (assembleSplit r ls).2) := by
      unfold assembleSplit
      simp only [List.foldl_cons, List.nil_append]
      exact ih (splitPairs r l).1 (splitPairs r l).2
    rw [hR]
    simp [List.append_assoc]

lemma assembleSplit_cons {α : Type} (r : ℚ) (l : List α) (ls : List (List α)) :
    assembleSplit r (l :: ls) =
      ((splitPairs r l).1 ++ (assembleSplit r ls).1,
        (splitPairs r l).2 ++ (assembleSplit r ls).2) := by
  unfold assembleSplit
  simp only [List.foldl_cons, List.nil_append]
  exact assembleSplit_acc r ls (splitPairs r l).1 (splitPairs r l).2

lemma assembleSplit_length {α : Type} (r : ℚ) (h0 : 0 ≤ r) (h1 : r ≤ 1) :
    ∀ ls : List (List α),
      (assembleSplit r ls).1.length =
        (ls.map (fun l => (⌊r * (l.length : ℚ)⌋).toNat)).sum := by
  intro ls
  induction ls with
  | nil => simp [assembleSplit]
  | cons l ls ih =>
    rw [assembleSplit_cons]
    simp [List.length_append, ih, splitPairs_len r l h0 h1]

lemma assembleSplit_perm {α : Type} (r : ℚ) :
    ∀ ls : List (List α),
      List.Perm ((assembleSplit r ls).1 ++ (assembleSplit r ls).2) ls.flatten := by
  intro ls
  induction ls with
  | nil => simp [assembleSplit]
  | cons l ls ih =>
    rw [assembleSplit_cons, List.flatten_cons]
    have e1 : ((splitPairs r l).1 ++ (assembleSplit r ls).1) ++
          ((splitPairs r l).2 ++ (assembleSplit r ls).2)
        = (splitPairs r l).1 ++ (((assembleSplit r ls).1 ++ (splitPairs r l).2)
            ++ (assembleSplit r ls).2) := by
      simp [List.append_assoc]
    have e2 : (splitPairs r l).1 ++ (((splitPairs r l).2 ++ (assembleSplit r ls).1)
            ++ (assembleSplit r ls).2)
        = ((splitPairs r l).1 ++ (splitPairs r l).2) ++
            ((assembleSplit r ls).1 ++ (assembleSplit r ls).2) := by
      simp [List.append_assoc]
    rw [e1]
    refine List.Perm.trans
      (List.Perm.append_left _ (List.perm_append_comm.append_right _)) ?_
    rw [e2, splitPairs_append r l]
    exact List.Perm.append_left l ih

lemma forall2_flatten_perm {α : Type} :
    ∀ {xs ys : List (List α)},
      List.Forall₂ (fun a b => List.Perm a b) xs ys →
      List.Perm xs.flatten ys.flatten := by
  intro xs ys h
  induction h with
  | nil => simp
  | cons hab htail ih =>
    simpa using List.Perm.append hab ih

lemma forall2_floor_sum {α : Type} (r : ℚ) :
    ∀ {xs ys : List (List α)},
      List.Forall₂ (fun a b => List.Perm a b) xs ys →
      (xs.map (fun l => (⌊r * (l.length : ℚ)⌋).toNat)).sum =
        (ys.map (fun l => (⌊r * (l.length : ℚ)⌋).toNat)).sum := by
  intro xs ys h
  induction h with
  | nil => rfl
  | cons hab htail ih =>
    simp [hab.length_eq, ih]

lemma splitPairs_single {α : Type} (r : ℚ) (h0 : 0 ≤ r) (h1 : r < 1)
    (x : α) : splitPairs r [x] = ([], [x]) := by
  rw [splitPairs_eq_take_drop r [x] h0]
  have hfl : ⌊r * (([x] : List α).length : ℚ)⌋ = 0 := by
    have e : r * (([x] : List α).length : ℚ) = r := by
      simp
    rw [e]
    exact Int.floor_eq_iff.mpr ⟨by exact_mod_cast h0, by push_cast; linarith⟩
  rw [hfl]
  simp

/-- C3 counterexample: a run with two imagesets of one resolved pair each
and split ratio `4/5` assembles an empty train list (each imageset
contributes `int(1 * 0.8) = 0` train pairs), although
`floor(4/5 * 2) = 1`: the train size is not `floor(r * N)` for the run's
total `N`. -/
theorem claim_C3_counterexample :
    (assembleSplit ((4 : ℚ)/5) [[0], [1]] : List ℕ × List ℕ).1.length ≠
      (⌊((4 : ℚ)/5) * 2⌋).toNat := by
  have h1 : splitPairs ((4 : ℚ)/5) ([0] : List ℕ) = ([], [0]) :=
    splitPairs_single _ (by norm_num) (by norm_num) 0
  have h2 : splitPairs ((4 : ℚ)/5) ([1] : List ℕ) = ([], [1]) :=
    splitPairs_single _ (by norm_num) (by norm_num) 1
  have hassem : (assembleSplit ((4 : ℚ)/5) [[0], [1]] : List ℕ × List ℕ).1 = [] := by
    rw [assembleSplit_cons, assembleSplit_cons, h1, h2]
    rfl
  have hfl : ⌊((4 : ℚ)/5) * 2⌋ = 1 :=
    Int.floor_eq_iff.mpr ⟨by norm_num, by norm_num⟩
  rw [hassem, hfl]
  decide

/-- C3 (amended): for every split ratio `0 ≤ r ≤ 1` and per-imageset
resolved pair lists, the assembly splits each imageset separately after
shuffling it: the train list has exactly the sum over imagesets of
`floor(r * N_i)` elements (not `floor(r * N)` for the run total `N`),
train and val sizes add up to `N`, their concatenation is a permutation
of all resolved pairs (every pair appears exactly once, none dropped,
none duplicated), and when the resolved pairs are pairwise distinct the
two lists are disjoint. -/
theorem claim_C3_split_invariant {α : Type} (r : ℚ)
    (produced shuffled : List (List α)) (h0 : 0 ≤ r) (h1 : r ≤ 1)
    (hperm : List.Forall₂ (fun a b => List.Perm a b) shuffled produced) :
    (assembleSplit r shuffled).1.length =
      (produced.map (fun l => (⌊r * (l.length : ℚ)⌋).toNat)).sum ∧
    (assembleSplit r shuffled).1.length + (assembleSplit r shuffled).2.length =
      produced.flatten.length ∧
    List.Perm ((assembleSplit r shuffled).1 ++ (assembleSplit r shuffled).2)
      produced.flatten ∧
    (produced.flatten.Nodup →
      ∀ x ∈ (assembleSplit r shuffled).1, x ∉ (assembleSplit r shuffled).2) := by
  have hp : List.Perm
      ((assembleSplit r shuffled).1 ++ (assembleSplit r shuffled).2)
      produced.flatten :=
    (assembleSplit_perm r shuffled).trans (forall2_flatten_perm hperm)
  refine ⟨?_, ?_, hp, ?_⟩
  · rw [assembleSplit_length r h0 h1 shuffled, forall2_floor_sum r hperm]
  · have hl := hp.length_eq
    simpa [List.length_append] using hl
  · intro hnd x hx1 hx2
    have hnd2 : ((assembleSplit r shuffled).1 ++ (assembleSplit r shuffled).2).Nodup :=
      hp.nodup_iff.mpr hnd
    exact (List.nodup_append.mp hnd2).2.2 hx1 hx2

/-- C3 witness: the theorem applied to one imageset of three pairs shuffled
by a cyclic permutation, with ratio `4/5`. -/
theorem claim_C3_witness :
    ((0 : ℚ) ≤ 4/5 ∧ (4 : ℚ)/5 ≤ 1 ∧
      List.Forall₂ (fun a b => List.Perm a b) [[2, 0, 1]] [[0, 1, 2]]) ∧
    ((assembleSplit ((4 : ℚ)/5) [[2, 0, 1]] : List ℕ × List ℕ).1.length =
        (([[0, 1, 2]] : List (List ℕ)).map
          (fun l => (⌊(4 : ℚ)/5 * (l.length : ℚ)⌋).toNat)).sum ∧
      (assembleSplit ((4 : ℚ)/5) [[2, 0, 1]] : List ℕ × List ℕ).1.length +
          (assembleSplit ((4 : ℚ)/5) [[2, 0, 1]] : List ℕ × List ℕ).2.length =
        ([[0, 1, 2]] : List (List ℕ)).flatten.length ∧
      List.Perm ((assembleSplit ((4 : ℚ)/5) [[2, 0, 1]] : List ℕ × List ℕ).1 ++
          (assembleSplit ((4 : ℚ)/5) [[2, 0, 1]] : List ℕ × List ℕ).2)
        ([[0, 1, 2]] : List (List ℕ)).flatten ∧
      (([[0, 1, 2]] : List (List ℕ)).flatten.Nodup →
        ∀ x ∈ (assembleSplit ((4 : ℚ)/5) [[2, 0, 1]] : List ℕ × List ℕ).1,
          x ∉ (assembleSplit ((4 : ℚ)/5) [[2, 0, 1]] : List ℕ × List ℕ).2)) :=
  ⟨⟨by norm_num, by norm_num,
      List.Forall₂.cons (by decide) List.Forall₂.nil⟩,
    claim_C3_split_invariant ((4 : ℚ)/5) [[0, 1, 2]] [[2, 0, 1]]
      (by norm_num) (by norm_num)
      (List.Forall₂.cons (by decide) List.Forall₂.nil)⟩
